import Mathlib

/-!
Verification of the selection and block-event subsystem of a block-based
rich text editor.  The development shallowly embeds three engines:

* the cross-block selection engine (file `part_002`, and an older divergent
  copy in `part_001`), whose state is the per-block `selected` flag together
  with the anchor bookkeeping (`firstSelectedBlockIndex`,
  `endSelectedBlockIndex`, `lastSelectedBlock`);
* the rectangle selection engine (`rectangleSelection.ts`), whose state is
  the drag bookkeeping (`mousedown`, `isRectSelectionActivated`,
  `rectCrossesBlocks`, `stackOfSelected`, coordinates) plus the selected set;
* the block event dispatcher (`blockEvents.ts`), operating on an ordered
  list of blocks with a current block and a caret.

Blocks are identified by their index in the registry (the registry does not
change during a selection drag, so object identity coincides with index
equality).  DOM lookups (`getBlockByChildNode`, caret boundary queries,
element geometry) are inputs of each handler, mirroring the fact that they
are reads of the environment.  JavaScript numbers are modelled as `Int`
(coordinates) and `ℚ` (scroll speeds); block indices are `Nat`.
-/

namespace CrossBlock

/-- State of the cross-block selection engine while a watch is armed
(`watchSelection` has run).  `blocks` holds the per-block `selected` flag,
indexed by registry position.  `firstIdx` is the captured
`firstSelectedBlockIndex` (the anchor), `endIdx` is `endSelectedBlockIndex`
and `lastIdx` identifies `lastSelectedBlock` by its index. -/
structure CBSState where
  blocks : List Bool
  firstIdx : Nat
  endIdx : Nat
  lastIdx : Nat
deriving DecidableEq, Repr

/-- `BlockManager.blocks[i].selected = v` : update one flag; an out-of-range
index leaves the list unchanged. -/
def setSel (blocks : List Bool) (i : Nat) (v : Bool) : List Bool :=
  blocks.set i v

/-- Body of the loop `for (i = lo; i <= hi; i++) blocks[i].selected = v`,
iterated on an explicit counter (`fuel` is the number of iterations left,
`i` the loop variable). -/
def setRangeGo (v : Bool) : Nat → Nat → List Bool → List Bool
  | 0, _, blocks => blocks
  | fuel + 1, i, blocks => setRangeGo v fuel (i + 1) (setSel blocks i v)

/-- The loop `for (i = lo; i <= hi; i++) blocks[i].selected = v`
(`hi + 1 - lo` iterations; none when `hi < lo`). -/
def setRange (blocks : List Bool) (lo hi : Nat) (v : Bool) : List Bool :=
  setRangeGo v (hi + 1 - lo) lo blocks

/-- Body of the first loop of `toggleBlocksSelectedState` (part_002). -/
def deselectOutsideGo (newBegin newEnd : Nat) :
    Nat → Nat → List Bool → List Bool
  | 0, _, blocks => blocks
  | fuel + 1, i, blocks =>
      deselectOutsideGo newBegin newEnd fuel (i + 1)
        (if i < newBegin ∨ newEnd < i then setSel blocks i false else blocks)

/-- The first loop of `toggleBlocksSelectedState` (part_002): walk the old
range `[lo, hi]` and deselect every index outside `[newBegin, newEnd]`. -/
def deselectOutside (blocks : List Bool) (lo hi newBegin newEnd : Nat) :
    List Bool :=
  deselectOutsideGo newBegin newEnd (hi + 1 - lo) lo blocks

/-- `toggleBlocksSelectedState` of `part_002` (whole-range resync): deselect
the blocks of the old range `[min(first, end), max(first, end)]` that fall
outside the new range `[min(target, first), max(target, first)]`, then select
every block of the new range, and record `endSelectedBlockIndex := target`. -/
def toggleBlocksSelectedState (st : CBSState) (targetIndex : Nat) : CBSState :=
  let newBeginIndex := min targetIndex st.firstIdx
  let newEndIndex := max targetIndex st.firstIdx
  let b1 := deselectOutside st.blocks (min st.firstIdx st.endIdx)
      (max st.firstIdx st.endIdx) newBeginIndex newEndIndex
  let b2 := setRange b1 (min st.firstIdx targetIndex)
      (max st.firstIdx targetIndex) true
  { st with blocks := b2, endIdx := targetIndex }

/-- `onMouseOver` of `part_002`.  `target?` and `related?` are the results of
`BlockManager.getBlockByChildNode` on `event.target` and
`event.relatedTarget`; `none` means no block resolved.  The related block
falls back to `lastSelectedBlock` when unresolved. -/
def onMouseOver (st : CBSState) (target? related? : Option Nat) : CBSState :=
  let related := related?.getD st.lastIdx
  match target? with
  | none => st
  | some target =>
    if target = related then st
    else if related = st.firstIdx then
      -- first real extension: select both the anchor and the target
      { st with blocks := setSel (setSel st.blocks related true) target true }
    else if target = st.firstIdx then
      -- collapsing back onto the anchor: deselect related and target, and
      -- when the recorded end differs from the anchor, sweep the old range
      let b1 := setSel (setSel st.blocks related false) target false
      let b2 :=
        if st.firstIdx ≠ st.endIdx then
          setRange b1 (min st.firstIdx st.endIdx) (max st.firstIdx st.endIdx)
            false
        else b1
      { st with blocks := b2 }
    else
      let st1 := toggleBlocksSelectedState st target
      { st1 with lastIdx := target }

/-- `toggleBlocksSelectedState` of `part_001` (incremental toggling): the
deselection step depends on the travel direction, derived from the related
and target indices relative to the anchor; then the new range is selected. -/
def toggleBlocksSelectedStateV1 (st : CBSState) (relateIndex targetIndex : Nat) :
    CBSState :=
  let b0 := st.blocks
  let b1 :=
    if st.firstIdx < targetIndex then
      -- downward selection
      let bA := if targetIndex < relateIndex then
          -- for (i = targetIndex + 1; i <= endSelectedBlockIndex; i++)
          setRange b0 (targetIndex + 1) st.endIdx false
        else b0
      if relateIndex < st.firstIdx then
        -- for (i = relateIndex; i < firstSelectedBlockIndex; i++)
        setRange bA relateIndex (st.firstIdx - 1) false
      else bA
    else
      -- upward selection
      let bA := if relateIndex < targetIndex then
          -- for (i = endSelectedBlockIndex; i < targetIndex; i++)
          setRange b0 st.endIdx (targetIndex - 1) false
        else b0
      if st.firstIdx < relateIndex then
        -- for (i = firstSelectedBlockIndex + 1; i <= relateIndex; i++)
        setRange bA (st.firstIdx + 1) relateIndex false
      else bA
  let b2 := setRange b1 (min st.firstIdx targetIndex)
      (max st.firstIdx targetIndex) true
  { st with blocks := b2, endIdx := targetIndex }

/-- `onMouseOver` of `part_001`: identical to the `part_002` handler except
that the general branch hands both the related and the target block to the
incremental `toggleBlocksSelectedState`. -/
def onMouseOverV1 (st : CBSState) (target? related? : Option Nat) : CBSState :=
  let related := related?.getD st.lastIdx
  match target? with
  | none => st
  | some target =>
    if target = related then st
    else if related = st.firstIdx then
      { st with blocks := setSel (setSel st.blocks related true) target true }
    else if target = st.firstIdx then
      let b1 := setSel (setSel st.blocks related false) target false
      let b2 :=
        if st.firstIdx ≠ st.endIdx then
          setRange b1 (min st.firstIdx st.endIdx) (max st.firstIdx st.endIdx)
            false
        else b1
      { st with blocks := b2 }
    else
      let st1 := toggleBlocksSelectedStateV1 st related target
      { st1 with lastIdx := target }

/-- A freshly armed watch: `watchSelection` captured the anchor index `a`
(with all blocks deselected by the preceding `clearSelection`). -/
def armed (n a : Nat) : CBSState :=
  { blocks := List.replicate n false, firstIdx := a, endIdx := a, lastIdx := a }

/-- Feed a sequence of mouseover events (target, related resolutions). -/
def runMouseOvers (st : CBSState) (evs : List (Option Nat × Option Nat)) :
    CBSState :=
  evs.foldl (fun s e => onMouseOver s e.1 e.2) st

/-- Same sequence through the `part_001` engine. -/
def runMouseOversV1 (st : CBSState) (evs : List (Option Nat × Option Nat)) :
    CBSState :=
  evs.foldl (fun s e => onMouseOverV1 s e.1 e.2) st

/-- The selected set equals exactly the inclusive range `[min a t, max a t]`. -/
def rangeInvariant (blocks : List Bool) (a t : Nat) : Prop :=
  ∀ i, i < blocks.length →
    (blocks.getD i false = true ↔ min a t ≤ i ∧ i ≤ max a t)

instance (blocks : List Bool) (a t : Nat) :
    Decidable (rangeInvariant blocks a t) := by
  unfold rangeInvariant; infer_instance

/-- A mouseover event that resolves both a target and a related block, with
the related block different from the anchor, the target different from the
anchor and from the related block — i.e. an event taking the general
whole-range reconciliation branch of `onMouseOver`. -/
def goodEv (n a : Nat) : Option Nat × Option Nat → Bool
  | (some t, some r) =>
      decide (t < n) && !(decide (r = a)) && !(decide (t = a)) &&
        !(decide (t = r))
  | _ => false

end CrossBlock

namespace RectSel

/-- State of the rectangle selection engine (`rectangleSelection.ts`).
`stack` is `stackOfSelected` with the HEAD of the list being the most
recently pushed index (the top of the JavaScript array).  `selected` is the
set of block indices whose `selected` flag is `true`
(`BlockSelection.selectBlockByIndex` inserts, `unSelectBlockByIndex`
erases).  `pending` counts the `setTimeout` callbacks of `scrollVertical`
currently sitting in the event queue, and `scrollTop` is the scroll
position of the scroll container. -/
structure RectState where
  mousedown : Bool
  isRectSelectionActivated : Bool
  rectCrossesBlocks : Bool
  inScrollZone : Bool
  overlayVisible : Bool
  startX : Int
  startY : Int
  mouseX : Int
  mouseY : Int
  speedFactory : ℚ
  stack : List Nat
  selected : Finset Nat
  pending : Nat
  scrollTop : ℚ
deriving DecidableEq

/-- `addBlockInSelection`: select the block when the rectangle currently
crosses the block column, and push its index on `stackOfSelected`. -/
def addBlockInSelection (st : RectState) (index : Nat) : RectState :=
  let sel := if st.rectCrossesBlocks then insert index st.selected
             else st.selected
  { st with selected := sel, stack := index :: st.stack }

/-- Body of the ascending fill loop of `trySelectNextBlock`, iterated on an
explicit counter. -/
def fillAscGo : Nat → RectState → Nat → RectState
  | 0, st, _ => st
  | fuel + 1, st, ind => fillAscGo fuel (addBlockInSelection st ind) (ind + 1)

/-- The ascending fill loop `for (ind; ind <= last; ind++)
addBlockInSelection(ind)` of `trySelectNextBlock`
(`last + 1 - ind` iterations; none when `last < ind`). -/
def fillAsc (st : RectState) (ind last : Nat) : RectState :=
  fillAscGo (last + 1 - ind) st ind

/-- Body of the descending fill loop of `trySelectNextBlock`. -/
def fillDescGo : Nat → RectState → Nat → RectState
  | 0, st, _ => st
  | fuel + 1, st, ind => fillDescGo fuel (addBlockInSelection st ind) (ind - 1)

/-- The descending fill loop `for (ind = hi; ind >= last; ind--)
addBlockInSelection(ind)` of `trySelectNextBlock`
(`hi + 1 - last` iterations; none when `hi < last`). -/
def fillDesc (st : RectState) (ind last : Nat) : RectState :=
  fillDescGo (ind + 1 - last) st ind

/-- The reduction loop of `trySelectNextBlock`: while `cmp()` holds of the
top of the stack, unselect it (when the rectangle crosses blocks) and pop. -/
def popLoop (crosses : Bool) (p : Nat → Bool) :
    List Nat → Finset Nat → List Nat × Finset Nat
  | [], sel => ([], sel)
  | x :: xs, sel =>
    if p x then popLoop crosses p xs (if crosses then sel.erase x else sel)
    else (x :: xs, sel)

/-- `trySelectNextBlock(index)`: ignore a repeat of the top index; derive the
direction from the last two stack entries; on continued travel push (and
possibly select) every index between the old top and `index`; on a reversal
pop (and possibly deselect) the stacked indices the comparison rejects. -/
def trySelectNextBlock (st : RectState) (index : Nat) : RectState :=
  match st.stack with
  | [] =>
      -- stack empty: `sameBlock` is false, direction is undefined and the
      -- ascending loop starts at `index` (`top + 1 || index`), pushing it
      fillAsc st index index
  | top :: rest =>
    if index = top then st
    else
      -- `blockNumbersIncrease = stack[len-1] - stack[len-2] > 0`
      let direction : Int :=
        match rest with
        | [] => 0
        | second :: _ => if second < top then 1 else -1
      let selectionInDownDirection := top < index ∧ direction = 1
      let selectionInUpDirection := index < top ∧ direction = -1
      let generalSelection :=
        selectionInDownDirection ∨ selectionInUpDirection ∨ direction = 0
      if generalSelection then
        (if top < index then fillAsc st (top + 1) index
         else fillDesc st (top - 1) index)
      else
        let p : Nat → Bool :=
          if top < index then fun x => decide (x < index)
          else fun x => decide (index < x)
        let res := popLoop st.rectCrossesBlocks p st.stack st.selected
        { st with stack := res.1, selected := res.2 }

/-- `inverseSelection`: make the overlap flag authoritative by selecting or
deselecting the whole stack when it disagrees with the first stacked
block's flag (`stackOfSelected[0]`, the bottom of the stack). -/
def inverseSelection (st : RectState) : RectState :=
  let isSelectedMode :=
    match st.stack.getLast? with
    | some i => decide (i ∈ st.selected)
    | none => false
  if st.rectCrossesBlocks ∧ isSelectedMode = false then
    { st with selected := st.stack.foldl (fun s i => insert i s) st.selected }
  else if st.rectCrossesBlocks = false ∧ isSelectedMode then
    { st with selected := st.stack.foldl (fun s i => s.erase i) st.selected }
  else st

/-- Environment of one `changingRectangle` call: pointer page coordinates,
the content column bounds computed by `genInfoForMouseSelection`, and the
block index resolved under the pointer (`none` when no block resolves). -/
structure MoveEnv where
  pageX : Int
  pageY : Int
  leftPos : Int
  rightPos : Int
  index : Option Nat
deriving DecidableEq, Repr

/-- `changingRectangle`: no-op unless the mouse is down.  Records the mouse
coordinates, recomputes `rectCrossesBlocks` from the horizontal extent of
the rectangle against the column bounds, forces it to `false` on the first
move of the drag (activating the rectangle and showing the overlay), then
feeds the resolved index to `trySelectNextBlock` and `inverseSelection`. -/
def changingRectangle (st : RectState) (ev : MoveEnv) : RectState :=
  if st.mousedown = false then st
  else
    let st1 := { st with mouseX := ev.pageX, mouseY := ev.pageY }
    let rectIsOnRightSide := ev.rightPos < st1.startX ∧ ev.rightPos < st1.mouseX
    let rectIsOnLeftSide := st1.startX < ev.leftPos ∧ st1.mouseX < ev.leftPos
    let st2 := { st1 with
      rectCrossesBlocks := ¬(rectIsOnRightSide ∨ rectIsOnLeftSide) }
    let st3 :=
      if st2.isRectSelectionActivated = false then
        { st2 with rectCrossesBlocks := false, isRectSelectionActivated := true,
                   overlayVisible := true }
      else st2
    -- updateRectangleSize and Toolbar.close touch only visual collaborators
    match ev.index with
    | none => st3
    | some index => inverseSelection (trySelectNextBlock st3 index)

/-- Environment of a `startSelection` call (a `mousedown` that reached the
handler): whether the element under the pointer is inside the toolbar,
whether it matches one of the selectors to avoid, the pointer page
coordinates, the scroll offsets and the viewport height. -/
structure StartEnv where
  startsInsideToolbar : Bool
  startsInSelectorToAvoid : Bool
  pageX : Int
  pageY : Int
  scrollLeft : Int
  scrollTop : Int
  innerHeight : Int
deriving DecidableEq, Repr

/-- `startSelection`: unless the drag starts inside the toolbar, deselect
all blocks (`BlockSelection.allBlocksSelected = false` — modelled from the
spec: the Block Registry exposes a per-block `selected` flag and this setter
clears it on every block), clear the activation flag and empty the stack;
then, unless the drag starts inside an excluded element, record the
scroll-adjusted origin, the resolution speed factor and the mousedown. -/
def startSelection (st : RectState) (ev : StartEnv) : RectState :=
  let st1 :=
    if ev.startsInsideToolbar = false then
      { st with selected := ∅, isRectSelectionActivated := false, stack := [] }
    else st
  if ev.startsInSelectorToAvoid then st1
  else
    { st1 with
      speedFactory := (ev.innerHeight : ℚ) / 768,
      mousedown := true,
      startX := ev.pageX + ev.scrollLeft,
      startY := ev.pageY + ev.scrollTop }

/-- `endSelection`: reset the speed factor, the mousedown flag and the drag
origin, and hide the overlay rectangle. -/
def endSelection (st : RectState) : RectState :=
  { st with speedFactory := 1, mousedown := false, startX := 0, startY := 0,
            overlayVisible := false }

/-- `clearSelection`: mark the rectangle selection as not activated. -/
def clearSelection (st : RectState) : RectState :=
  { st with isRectSelectionActivated := false }

/-- `processMouseUp`: clear the activation flag and end the selection. -/
def processMouseUp (st : RectState) : RectState :=
  endSelection (clearSelection st)

/-- `processMouseLeave` (document `mouseleave`): same teardown. -/
def processMouseLeave (st : RectState) : RectState :=
  endSelection (clearSelection st)

/-- `scrollVertical(speed)` as invoked — synchronously from `scrollByZones`
or when one of its scheduled `setTimeout` callbacks fires: it re-checks the
live drag state (`inScrollZone && mousedown`); if the drag is over it does
nothing, otherwise it scrolls the container and schedules itself again
(one more pending callback). -/
def scrollVertical (st : RectState) (speed : ℚ) : RectState :=
  if (st.inScrollZone ∧ st.mousedown) then
    { st with scrollTop := st.scrollTop + speed, pending := st.pending + 1 }
  else st

/-- A scheduled `scrollVertical` callback fires: it leaves the event queue
and then runs `scrollVertical`. -/
def fireScrollCallback (st : RectState) (speed : ℚ) : RectState :=
  scrollVertical { st with pending := st.pending - 1 } speed

/-- `scrollByZones`: recompute `inScrollZone` from the pointer position in
the 100px viewport bands and, when inside a band, call `scrollVertical`
with a delta proportional to the band penetration, scaled by the base
speed 4 and the resolution factor. -/
def scrollByZones (st : RectState) (clientY innerHeight : Int) : RectState :=
  let distanceFromTop := clientY
  let distanceFromBottom := innerHeight - clientY
  let deltaY : Int :=
    if distanceFromTop < 100 then -(100 - distanceFromTop)
    else if distanceFromBottom < 100 then 100 - distanceFromBottom
    else 0
  let inZone := distanceFromTop < 100 ∨ distanceFromBottom < 100
  let st1 := { st with inScrollZone := inZone }
  if inZone = false then st1
  else scrollVertical st1 ((deltaY : ℚ) / 100 * 4 * st1.speedFactory)

/-- Feed a sequence of pointer moves to `changingRectangle`. -/
def runMoves (st : RectState) (evs : List MoveEnv) : RectState :=
  evs.foldl changingRectangle st

/-- `stackOfSelected` read head-first is a descending chain with step one
(the drag travelled downward: indices were pushed in increasing order). -/
def stepDown : List Nat → Bool
  | a :: b :: t => (b + 1 = a : Bool) && stepDown (b :: t)
  | _ => true

/-- `stackOfSelected` read head-first is an ascending chain with step one
(the drag travelled upward: indices were pushed in decreasing order). -/
def stepUp : List Nat → Bool
  | a :: b :: t => (a + 1 = b : Bool) && stepUp (b :: t)
  | _ => true

/-- The stack is a contiguous run of adjacent indices, strictly monotonic
in one direction. -/
def isMonoRun (l : List Nat) : Bool := stepDown l || stepUp l

end RectSel

namespace BlockEvents

/-- A caret position inside a block: at the very start, at the very end, or
focused on input number `i` of the block. -/
inductive CaretPos where
  | start : CaretPos
  | stop : CaretPos
  | inputAt : Nat → CaretPos
deriving DecidableEq, Repr

/-- A block of the registry: a stable identity, the `isEmpty` predicate, the
`selected` flag, the number of focusable inputs and the index of the input
currently holding focus (`currentInput`; `none` when the block has no
focused input). -/
structure Block where
  id : Nat
  isEmpty : Bool
  selected : Bool
  inputsCount : Nat
  currentInput : Option Nat
deriving DecidableEq, Repr

/-- Editor state seen by the block event dispatcher: the ordered block list,
the index of the block holding input focus, and the caret (block id plus
position inside that block). -/
structure EditorState where
  blocks : List Block
  currentBlockIndex : Option Nat
  caret : Option (Nat × CaretPos)
deriving DecidableEq, Repr

/-- `BlockManager.currentBlock`. -/
def currentBlock (st : EditorState) : Option Block :=
  st.currentBlockIndex.bind fun i => st.blocks[i]?

/-- Modelled from the spec: the Block Registry exposes `previousBlock`, the
block preceding the current one, `null` when the current block is the first
(or there is no current block). -/
def previousBlock (st : EditorState) : Option Block :=
  match st.currentBlockIndex with
  | none => none
  | some i => if i = 0 then none else st.blocks[i - 1]?

/-- Modelled from the spec: the Block Registry exposes `nextBlock`, the
block following the current one, `null` when the current block is the last
(or there is no current block). -/
def nextBlock (st : EditorState) : Option Block :=
  match st.currentBlockIndex with
  | none => none
  | some i => st.blocks[i + 1]?

/-- Modelled from the spec: the Block Registry remove primitive.  Removing
the block at index `i` deletes it from the ordered list; the current block
index is decremented when it is at or after the removed position, so that
removing the current block makes the previous block current. -/
def removeBlockAt (st : EditorState) (i : Nat) : EditorState :=
  { st with
    blocks := st.blocks.eraseIdx i,
    currentBlockIndex := st.currentBlockIndex.map fun c =>
      if i ≤ c then c - 1 else c }

/-- Modelled from the spec: `Caret.setToBlock(block, position)` places the
caret at the given position of the given block and focuses that block. -/
def setToBlock (st : EditorState) (b? : Option Block) (pos : CaretPos) :
    EditorState :=
  match b? with
  | none => st
  | some b =>
    { st with
      caret := some (b.id, pos),
      currentBlockIndex :=
        (st.blocks.findIdx? fun x => x.id = b.id).getD 0 |> some }

/-- Modelled from the spec: `Caret.navigatePrevious` moves focus to the
previous input within the same block (the only use reached by the embedded
handlers is the not-first-input branch). -/
def navigatePrevious (st : EditorState) : EditorState :=
  match st.currentBlockIndex, currentBlock st with
  | some i, some cur =>
    match cur.currentInput with
    | some (k + 1) =>
      { st with
        blocks := st.blocks.set i { cur with currentInput := some k },
        caret := some (cur.id, CaretPos.inputAt k) }
    | _ => st
  | _, _ => st

/-- Modelled from the spec: `Caret.navigateNext`, the forward mirror. -/
def navigateNext (st : EditorState) : EditorState :=
  match st.currentBlockIndex, currentBlock st with
  | some i, some cur =>
    match cur.currentInput with
    | some k =>
      if k + 1 < cur.inputsCount then
        { st with
          blocks := st.blocks.set i { cur with currentInput := some (k + 1) },
          caret := some (cur.id, CaretPos.inputAt (k + 1)) }
      else st
    | none => st
  | _, _ => st

/-- Modelled from the spec: the Block Registry merge primitive wrapped by
`mergeBlocks` — the block to merge is concatenated into the target block
and removed from the list; the caret lands at the merge point (the end of
the target block before concatenation). -/
def mergeBlocksOp (st : EditorState) (targetIdx mergedIdx : Nat) :
    EditorState :=
  match st.blocks[targetIdx]? with
  | none => st
  | some target =>
    let st1 := removeBlockAt st mergedIdx
    { st1 with
      caret := some (target.id, CaretPos.stop),
      currentBlockIndex := some targetIdx }

/-- The `firstInput` of a block: its input number 0 when it has any. -/
def firstInput (b : Block) : Option Nat :=
  if b.inputsCount = 0 then none else some 0

/-- The `lastInput` of a block. -/
def lastInput (b : Block) : Option Nat :=
  if b.inputsCount = 0 then none else some (b.inputsCount - 1)

/-- The `backspace` keydown handler of `blockEvents.ts`.  `isCollapsed` is
`SelectionUtils.isCollapsed` and `caretAtStart` is
`caretUtils.isCaretAtStartOfInput(currentBlock.currentInput)`, both reads
of the DOM; `mergeable` is the `areBlocksMergeable` compatibility check. -/
def backspace (st : EditorState) (isCollapsed caretAtStart : Bool)
    (mergeable : Block → Block → Bool) : EditorState :=
  match st.currentBlockIndex, currentBlock st with
  | some i, some cur =>
    if isCollapsed = false then st
    else if cur.currentInput = none ∨ caretAtStart = false then st
    else
      -- event.preventDefault() and Toolbar.close() touch no modelled state
      if cur.currentInput ≠ firstInput cur then navigatePrevious st
      else
        match previousBlock st with
        | none => st
        | some prev =>
          if prev.isEmpty then removeBlockAt st (i - 1)
          else if cur.isEmpty then
            let st1 := removeBlockAt st i
            setToBlock st1 (currentBlock st1) CaretPos.stop
          else if mergeable prev cur then mergeBlocksOp st (i - 1) i
          else setToBlock st (some prev) CaretPos.stop
  | _, _ => st

/-- The `delete` keydown handler of `blockEvents.ts`.  Unlike `backspace`,
the source destructures `currentBlock` but never guards it against
`undefined`; after the collapsed-selection check it reads
`currentBlock.currentInput`, which faults when no current block resolves.
`Except.error` models the thrown `TypeError`. -/
def delete (st : EditorState) (isCollapsed caretAtEnd : Bool)
    (mergeable : Block → Block → Bool) : Except String EditorState :=
  if isCollapsed = false then Except.ok st
  else
    match st.currentBlockIndex, currentBlock st with
    | some i, some cur =>
      -- isCaretAtEndOfInput(currentBlock.currentInput)
      if caretAtEnd = false then Except.ok st
      else if cur.currentInput ≠ lastInput cur then Except.ok (navigateNext st)
      else
        match nextBlock st with
        | none => Except.ok st
        | some nxt =>
          if nxt.isEmpty then Except.ok (removeBlockAt st (i + 1))
          else if cur.isEmpty then
            let st1 := removeBlockAt st i
            Except.ok (setToBlock st1 (some nxt) CaretPos.start)
          else if mergeable cur nxt then Except.ok (mergeBlocksOp st i (i + 1))
          else Except.ok (setToBlock st (some nxt) CaretPos.start)
    | _, _ =>
      Except.error "TypeError: cannot read currentInput of undefined"

/-- `BlockSelection.anyBlockSelected`. -/
def anyBlockSelected (st : EditorState) : Bool :=
  st.blocks.any fun b => b.selected

/-- Modelled from the spec: `BlockManager.removeSelectedBlocks` removes
every selected block and returns the index the selection occupied (the
position of the first selected block). -/
def removeSelectedBlocks (st : EditorState) : EditorState × Nat :=
  let pos := st.blocks.findIdx fun b => b.selected
  ({ st with blocks := st.blocks.filter fun b => b.selected = false }, pos)

/-- Modelled from the spec: `BlockManager.insertDefaultBlockAtIndex` inserts
a fresh empty default block at the given index and returns it. -/
def insertDefaultBlockAtIndex (st : EditorState) (pos : Nat) :
    EditorState × Block :=
  let freshId := (st.blocks.foldl (fun m b => max m b.id) 0) + 1
  let b : Block :=
    { id := freshId, isEmpty := true, selected := false, inputsCount := 1,
      currentInput := some 0 }
  ({ st with blocks := st.blocks.insertIdx pos b }, b)

/-- Modelled from the spec: `BlockSelection.clearSelection` clears every
per-block `selected` flag. -/
def clearSelectionAll (st : EditorState) : EditorState :=
  { st with blocks := st.blocks.map fun b => { b with selected := false } }

/-- The `handleCommandX` cut handler.  `copyResult` is the outcome of the
awaited `BlockSelection.copySelectedBlocks(event)` operation; the
destructive continuation is the `.then` callback, which never runs when the
copy rejects (there is no rejection handler). -/
def handleCommandX (st : EditorState) (copyResult : Except Unit Unit) :
    EditorState :=
  if anyBlockSelected st = false then st
  else
    match copyResult with
    | Except.error _ => st
    | Except.ok _ =>
      let r1 := removeSelectedBlocks st
      let r2 := insertDefaultBlockAtIndex r1.1 r1.2
      let st3 := setToBlock r2.1 (some r2.2) CaretPos.start
      clearSelectionAll st3

end BlockEvents

namespace BlockEvents

/-- A non-empty block with a single input. -/
def plainBlock (i : Nat) : Block :=
  { id := i, isEmpty := false, selected := false, inputsCount := 1,
    currentInput := none }

/-- An empty block with a single focused input. -/
def emptyFocusedBlock (i : Nat) : Block :=
  { id := i, isEmpty := true, selected := false, inputsCount := 1,
    currentInput := some 0 }

/-- A state in which no current block resolves (the caret sits outside any
block), with one ordinary block in the registry. -/
def noCurrentState : EditorState :=
  { blocks := [plainBlock 1], currentBlockIndex := none, caret := none }

/-- Current block empty, previous block non-empty: the input of the C2
counterexample. -/
def emptyCurrentState : EditorState :=
  { blocks := [plainBlock 0, emptyFocusedBlock 1],
    currentBlockIndex := some 1,
    caret := some (1, CaretPos.start) }

/-- A mergeability check that rejects every pair. -/
def noMerge : Block → Block → Bool := fun _ _ => false

/-- A state with one selected block, for exercising the cut handler. -/
def oneSelectedState : EditorState :=
  { blocks := [{ plainBlock 0 with selected := true }, plainBlock 1],
    currentBlockIndex := some 0,
    caret := some (0, CaretPos.start) }

/-- Previous block empty, current block non-empty with its first input
focused: the scenario of the C9 frame property. -/
def emptyPrevState : EditorState :=
  { blocks := [emptyFocusedBlock 0, { plainBlock 1 with currentInput := some 0 }],
    currentBlockIndex := some 1,
    caret := some (1, CaretPos.start) }

end BlockEvents

namespace RectSel

/-- A quiescent engine state: no drag, nothing selected, empty stack. -/
def idleState : RectState :=
  { mousedown := false, isRectSelectionActivated := false,
    rectCrossesBlocks := false, inScrollZone := false, overlayVisible := false,
    startX := 0, startY := 0, mouseX := 0, mouseY := 0, speedFactory := 1,
    stack := [], selected := ∅, pending := 0, scrollTop := 0 }

/-- A mousedown at page x = 200 outside the toolbar and outside the
excluded selectors, with the standard 768px viewport. -/
def startEv : StartEnv :=
  { startsInsideToolbar := false, startsInSelectorToAvoid := false,
    pageX := 200, pageY := 50, scrollLeft := 0, scrollTop := 0,
    innerHeight := 768 }

/-- The first pointer move of that drag: the pointer (and the drag origin)
sit at x = 200, strictly inside the content column [100, 300]. -/
def firstMoveEv : MoveEnv :=
  { pageX := 200, pageY := 60, leftPos := 100, rightPos := 300, index := none }

/-- Both the drag origin and the pointer lie outside the content column on
the same side. -/
def bothOutsideSameSide (startX : Int) (ev : MoveEnv) : Prop :=
  (ev.rightPos < startX ∧ ev.rightPos < ev.pageX) ∨
  (startX < ev.leftPos ∧ ev.pageX < ev.leftPos)

instance (startX : Int) (ev : MoveEnv) :
    Decidable (bothOutsideSameSide startX ev) := by
  unfold bothOutsideSameSide; infer_instance

/-- Mid-drag state for exercising the autoscroll loop: the mouse is held
down, no scroll callback is pending yet. -/
def dragState : RectState :=
  { idleState with mousedown := true, startX := 200, startY := 50 }

/-- A mid-drag state whose stack records a downward run over blocks 3..5,
all selected, with the rectangle crossing the block column. -/
def downRunState : RectState :=
  { idleState with
    mousedown := true, isRectSelectionActivated := true,
    rectCrossesBlocks := true, stack := [5, 4, 3], selected := {3, 4, 5} }

/-- Fold a whole list of pointer indices through `trySelectNextBlock`. -/
def runIndices (st : RectState) (idxs : List Nat) : RectState :=
  idxs.foldl trySelectNextBlock st

/-- An activated drag whose origin sits at x = 20, far left of the content
column. -/
def leftDragState : RectState :=
  { idleState with
    mousedown := true, isRectSelectionActivated := true, startX := 20 }

/-- A pointer move that keeps the whole rectangle left of the content
column [100, 300]. -/
def leftMoveEv : MoveEnv :=
  { pageX := 30, pageY := 10, leftPos := 100, rightPos := 300,
    index := some 0 }

/-- A later move of the same drag, still fully left of the column. -/
def leftMoveEv2 : MoveEnv :=
  { pageX := 40, pageY := 500, leftPos := 100, rightPos := 300,
    index := some 2 }

end RectSel

/-- C6: the spec requires every handler to treat an unresolved block lookup
as a silent no-op, and in particular the Delete key handler when no current
block resolves.  The embedded `delete` handler instead faults (the source
reads `currentBlock.currentInput` without the `undefined` guard that its
mirror `backspace` has): evaluated at a state with no current block and a
collapsed selection, `delete` throws while `backspace` is the required
no-op. -/
theorem c6_thm :
    BlockEvents.delete BlockEvents.noCurrentState true true BlockEvents.noMerge
      = Except.error "TypeError: cannot read currentInput of undefined"
    ∧ BlockEvents.backspace BlockEvents.noCurrentState true true
        BlockEvents.noMerge = BlockEvents.noCurrentState :=
  ⟨rfl, rfl⟩

/-- C3: for cut with at least one selected block, the destructive steps run
only in the `.then` continuation of the clipboard copy; when the copy
rejects, the whole editor state — blocks, selection flags, caret — is
unchanged. -/
theorem c3_thm (st : BlockEvents.EditorState) (e : Unit)
    (h : BlockEvents.anyBlockSelected st = true) :
    BlockEvents.handleCommandX st (Except.error e) = st := by
  simp [BlockEvents.handleCommandX, h]

/-- Witness for C3 at a concrete one-selected-block state. -/
theorem c3_wit :
    BlockEvents.anyBlockSelected BlockEvents.oneSelectedState = true ∧
    BlockEvents.handleCommandX BlockEvents.oneSelectedState (Except.error ()) =
      BlockEvents.oneSelectedState :=
  ⟨by decide, c3_thm BlockEvents.oneSelectedState () (by decide)⟩

/-- C8: the incremental-toggling variant (part_001) and the
whole-range-resync variant (part_002) of the mouseover range reconciliation
diverge: from the watch armed at block 2 of six, the mouseover sequence
(target 1, unresolved related), (target 0, related 1), (target 4, related 5)
leaves different sets of blocks selected — the resync variant keeps
exactly blocks 2..4 selected, the incremental variant also keeps the stale
blocks 0 and 1. -/
theorem c8_thm :
    (CrossBlock.runMouseOvers (CrossBlock.armed 6 2)
        [(some 1, none), (some 0, some 1), (some 4, some 5)]).blocks ≠
    (CrossBlock.runMouseOversV1 (CrossBlock.armed 6 2)
        [(some 1, none), (some 0, some 1), (some 4, some 5)]).blocks := by
  decide

/-- Counterexample for C7: the autoscroll loop is reentrant.  Two throttled
mousemoves inside the top scroll zone during one drag (the mouse still
down) leave two scheduled `scrollVertical` callbacks alive at once,
refuting the at-most-one-live-chain part of the claim. -/
theorem c7_cex :
    ¬ ((RectSel.scrollByZones (RectSel.scrollByZones RectSel.dragState 50 768)
          50 768).pending ≤ 1)
    ∧ (RectSel.scrollByZones (RectSel.scrollByZones RectSel.dragState 50 768)
          50 768).mousedown = true := by
  constructor
  · decide
  · rfl

/-- C7 (amended): each `scrollVertical` invocation re-checks the live drag
state, so once the drag ends (`processMouseUp` clears `mousedown`, or the
pointer leaves the scroll zone) every pending callback dies on its very
next tick without scrolling or rescheduling; however the loop is not
guarded against reentry — every in-zone pointer move during a drag
schedules one more live callback chain. -/
theorem c7_thm (st : RectSel.RectState) (speed : ℚ) (clientY innerHeight : Int) :
    ((st.mousedown = false ∨ st.inScrollZone = false) →
      RectSel.fireScrollCallback st speed =
        { st with pending := st.pending - 1 })
    ∧ (RectSel.processMouseUp st).mousedown = false
    ∧ (st.mousedown = true → clientY < 100 →
        (RectSel.scrollByZones st clientY innerHeight).pending =
          st.pending + 1) := by
  refine ⟨fun h => ?_, rfl, fun hm hy => ?_⟩
  · unfold RectSel.fireScrollCallback RectSel.scrollVertical
    rcases h with h | h <;> simp [h]
  · unfold RectSel.scrollByZones RectSel.scrollVertical
    simp [hy, hm]

/-- Witness for C7 at concrete states: after mouseup the pending callback
dies on its next tick, and one in-zone move during the drag schedules one
chain. -/
theorem c7_wit :
    RectSel.fireScrollCallback (RectSel.processMouseUp RectSel.dragState) 2 =
      { RectSel.processMouseUp RectSel.dragState with pending := 0 }
    ∧ (RectSel.scrollByZones RectSel.dragState 50 768).pending = 1 :=
  ⟨(c7_thm (RectSel.processMouseUp RectSel.dragState) 2 50 768).1
      (Or.inl rfl),
   by
     have h := (c7_thm RectSel.dragState 2 50 768).2.2 rfl (by decide)
     simpa using h⟩

/-- C10: ending a rectangle drag only resets the drag flags, the origin
coordinates, the speed factor and the overlay visibility — the selected set
and `stackOfSelected` survive `endSelection`, `processMouseUp` and
`processMouseLeave` untouched; the next `startSelection` whose target is
not inside the toolbar deselects every block and empties the stack. -/
theorem c10_thm (st : RectSel.RectState) (ev : RectSel.StartEnv) :
    RectSel.endSelection st =
      { st with speedFactory := 1, mousedown := false, startX := 0,
                startY := 0, overlayVisible := false }
    ∧ RectSel.processMouseUp st =
      { st with isRectSelectionActivated := false, speedFactory := 1,
                mousedown := false, startX := 0, startY := 0,
                overlayVisible := false }
    ∧ RectSel.processMouseLeave st = RectSel.processMouseUp st
    ∧ (ev.startsInsideToolbar = false →
        (RectSel.startSelection st ev).selected = ∅ ∧
        (RectSel.startSelection st ev).stack = []) := by
  refine ⟨rfl, rfl, rfl, fun h => ?_⟩
  unfold RectSel.startSelection
  by_cases hs : ev.startsInSelectorToAvoid <;> simp [h, hs]

/-- Witness for C10 at a concrete non-toolbar mousedown. -/
theorem c10_wit :
    (RectSel.startSelection RectSel.idleState RectSel.startEv).selected = ∅ ∧
    (RectSel.startSelection RectSel.idleState RectSel.startEv).stack = [] :=
  (c10_thm RectSel.idleState RectSel.startEv).2.2.2 rfl

/-- Counterexample for C2: at a two-block state whose current block is empty
with the caret at the start of its first input, whose previous block is
non-empty, and whose blocks are not mergeable, backspace removes a block —
the block count drops from 2 to 1, refuting the claim that neither block is
deleted and the count is unchanged. -/
theorem c2_cex :
    BlockEvents.emptyCurrentState.blocks.length = 2 ∧
    (BlockEvents.backspace BlockEvents.emptyCurrentState true true
        BlockEvents.noMerge).blocks.length = 1 := by
  exact ⟨rfl, by decide⟩

/-- C2 (amended): if Backspace fires with a collapsed selection, the caret
at the start of the first input of the current block, the previous block
non-empty and the current block empty (mergeability is irrelevant — this
branch runs before the mergeable check), then the current block is removed,
the caret moves to the end of the previous block, the block count decreases
by exactly one, and the previous block survives at its position. -/
theorem c2_thm (st : BlockEvents.EditorState) (i : Nat)
    (cur prev : BlockEvents.Block)
    (mergeable : BlockEvents.Block → BlockEvents.Block → Bool)
    (hidx : st.currentBlockIndex = some i) (hi : 1 ≤ i)
    (hcur : st.blocks[i]? = some cur)
    (hprev : st.blocks[i - 1]? = some prev)
    (hpne : prev.isEmpty = false) (hce : cur.isEmpty = true)
    (hinput : cur.currentInput = some 0) (hic : cur.inputsCount ≠ 0)
    (_hnm : mergeable prev cur = false) :
    (BlockEvents.backspace st true true mergeable).blocks =
        st.blocks.eraseIdx i
    ∧ (BlockEvents.backspace st true true mergeable).caret =
        some (prev.id, BlockEvents.CaretPos.stop)
    ∧ (BlockEvents.backspace st true true mergeable).blocks.length + 1 =
        st.blocks.length
    ∧ (BlockEvents.backspace st true true mergeable).blocks[i - 1]? =
        some prev := by
  have hcb : BlockEvents.currentBlock st = some cur := by
    simp [BlockEvents.currentBlock, hidx, hcur]
  have hfirst : BlockEvents.firstInput cur = some 0 := by
    simp [BlockEvents.firstInput, hic]
  have hilen : i < st.blocks.length :=
    (List.getElem?_eq_some_iff.mp hcur).1
  have hprevB : BlockEvents.previousBlock st = some prev := by
    unfold BlockEvents.previousBlock
    rw [hidx]
    simp [show i ≠ 0 by omega, hprev]
  have hrm : BlockEvents.removeBlockAt st i =
      { st with blocks := st.blocks.eraseIdx i,
                currentBlockIndex := some (i - 1) } := by
    simp [BlockEvents.removeBlockAt, hidx]
  have hcb1 : BlockEvents.currentBlock (BlockEvents.removeBlockAt st i) =
      some prev := by
    rw [hrm]
    show (st.blocks.eraseIdx i)[i - 1]? = some prev
    rw [List.getElem?_eraseIdx, if_pos (show i - 1 < i by omega)]
    exact hprev
  have hmain : BlockEvents.backspace st true true mergeable =
      BlockEvents.setToBlock (BlockEvents.removeBlockAt st i)
        (BlockEvents.currentBlock (BlockEvents.removeBlockAt st i))
        BlockEvents.CaretPos.stop := by
    unfold BlockEvents.backspace
    rw [hidx, hcb]
    simp [hinput, hfirst, hprevB, hpne, hce]
  rw [hmain, hcb1]
  unfold BlockEvents.setToBlock
  rw [hrm]
  refine ⟨rfl, rfl, ?_, ?_⟩
  · simp [List.length_eraseIdx, hilen]
    omega
  · show (st.blocks.eraseIdx i)[i - 1]? = some prev
    rw [List.getElem?_eraseIdx, if_pos (show i - 1 < i by omega)]
    exact hprev

/-- Witness for C2 at the concrete two-block state. -/
theorem c2_wit :
    (BlockEvents.backspace BlockEvents.emptyCurrentState true true
        BlockEvents.noMerge).blocks =
      BlockEvents.emptyCurrentState.blocks.eraseIdx 1
    ∧ (BlockEvents.backspace BlockEvents.emptyCurrentState true true
        BlockEvents.noMerge).caret =
      some ((BlockEvents.plainBlock 0).id, BlockEvents.CaretPos.stop)
    ∧ (BlockEvents.backspace BlockEvents.emptyCurrentState true true
        BlockEvents.noMerge).blocks.length + 1 =
      BlockEvents.emptyCurrentState.blocks.length
    ∧ (BlockEvents.backspace BlockEvents.emptyCurrentState true true
        BlockEvents.noMerge).blocks[1 - 1]? =
      some (BlockEvents.plainBlock 0) :=
  c2_thm BlockEvents.emptyCurrentState 1 (BlockEvents.emptyFocusedBlock 1)
    (BlockEvents.plainBlock 0) BlockEvents.noMerge rfl (by decide) rfl rfl
    rfl rfl rfl (by decide) rfl

/-- C9: if Backspace fires with a collapsed selection, the caret at the
start of the first input of the current block, and the previous block
exists and is empty, then exactly the previous block is removed: the block
list loses only position `i - 1`, the caret is untouched, and the current
block — content, flags and focus — is unchanged and still current. -/
theorem c9_thm (st : BlockEvents.EditorState) (i : Nat)
    (cur prev : BlockEvents.Block)
    (mergeable : BlockEvents.Block → BlockEvents.Block → Bool)
    (hidx : st.currentBlockIndex = some i) (hi : 1 ≤ i)
    (hcur : st.blocks[i]? = some cur)
    (hprev : st.blocks[i - 1]? = some prev)
    (hpe : prev.isEmpty = true)
    (hinput : cur.currentInput = some 0) (hic : cur.inputsCount ≠ 0) :
    BlockEvents.backspace st true true mergeable =
      { st with blocks := st.blocks.eraseIdx (i - 1),
                currentBlockIndex := some (i - 1) }
    ∧ (BlockEvents.backspace st true true mergeable).caret = st.caret
    ∧ BlockEvents.currentBlock (BlockEvents.backspace st true true mergeable) =
        some cur := by
  have hcb : BlockEvents.currentBlock st = some cur := by
    simp [BlockEvents.currentBlock, hidx, hcur]
  have hfirst : BlockEvents.firstInput cur = some 0 := by
    simp [BlockEvents.firstInput, hic]
  have hprevB : BlockEvents.previousBlock st = some prev := by
    unfold BlockEvents.previousBlock
    rw [hidx]
    simp [show i ≠ 0 by omega, hprev]
  have hmain : BlockEvents.backspace st true true mergeable =
      BlockEvents.removeBlockAt st (i - 1) := by
    unfold BlockEvents.backspace
    rw [hidx, hcb]
    simp [hinput, hfirst, hprevB, hpe]
  have hrm : BlockEvents.removeBlockAt st (i - 1) =
      { st with blocks := st.blocks.eraseIdx (i - 1),
                currentBlockIndex := some (i - 1) } := by
    simp [BlockEvents.removeBlockAt, hidx, show i - 1 ≤ i by omega]
  refine ⟨hmain.trans hrm, ?_, ?_⟩
  · rw [hmain, hrm]
  · rw [hmain, hrm]
    show (st.blocks.eraseIdx (i - 1))[i - 1]? = some cur
    rw [List.getElem?_eraseIdx, if_neg (by omega)]
    rw [show i - 1 + 1 = i by omega]
    exact hcur

/-- Witness for C9 at the concrete empty-previous-block state. -/
theorem c9_wit :
    BlockEvents.backspace BlockEvents.emptyPrevState true true
        BlockEvents.noMerge =
      { BlockEvents.emptyPrevState with
        blocks := BlockEvents.emptyPrevState.blocks.eraseIdx 0,
        currentBlockIndex := some 0 }
    ∧ (BlockEvents.backspace BlockEvents.emptyPrevState true true
        BlockEvents.noMerge).caret = BlockEvents.emptyPrevState.caret
    ∧ BlockEvents.currentBlock (BlockEvents.backspace
        BlockEvents.emptyPrevState true true BlockEvents.noMerge) =
      some { BlockEvents.plainBlock 1 with currentInput := some 0 } :=
  c9_thm BlockEvents.emptyPrevState 1
    { BlockEvents.plainBlock 1 with currentInput := some 0 }
    (BlockEvents.emptyFocusedBlock 0) BlockEvents.noMerge rfl (by decide)
    rfl rfl rfl rfl (by decide)

namespace CrossBlock

theorem length_setSel (blocks : List Bool) (i : Nat) (v : Bool) :
    (setSel blocks i v).length = blocks.length := by
  simp [setSel]

theorem getD_setSel (blocks : List Bool) (i j : Nat) (v : Bool) :
    (setSel blocks i v).getD j false =
      if i = j ∧ j < blocks.length then v else blocks.getD j false := by
  unfold setSel
  rw [List.getD_eq_getElem?_getD, List.getD_eq_getElem?_getD,
    List.getElem?_set]
  by_cases hij : i = j
  · subst hij
    by_cases hi : i < blocks.length
    · simp [hi]
    · rw [List.getElem?_eq_none (by omega)]
      simp [hi]
  · simp [hij]

theorem getD_false_of_le (l : List Bool) (j : Nat) (h : l.length ≤ j) :
    l.getD j false = false := by
  rw [List.getD_eq_getElem?_getD, List.getElem?_eq_none h]
  rfl

theorem getD_replicate_false (n j : Nat) :
    (List.replicate n false).getD j false = false := by
  rw [List.getD_eq_getElem?_getD, List.getElem?_replicate]
  split <;> rfl

theorem length_setRangeGo (v : Bool) (fuel lo : Nat) (blocks : List Bool) :
    (setRangeGo v fuel lo blocks).length = blocks.length := by
  induction fuel generalizing lo blocks with
  | zero => rfl
  | succ n ih => simp [setRangeGo, ih, length_setSel]

theorem getD_setRangeGo (v : Bool) (fuel lo j : Nat) (blocks : List Bool) :
    (setRangeGo v fuel lo blocks).getD j false =
      if lo ≤ j ∧ j < lo + fuel ∧ j < blocks.length then v
      else blocks.getD j false := by
  induction fuel generalizing lo blocks with
  | zero =>
      rw [setRangeGo, if_neg (by omega)]
  | succ n ih =>
      rw [setRangeGo, ih, length_setSel, getD_setSel]
      by_cases h1 : lo + 1 ≤ j ∧ j < lo + 1 + n ∧ j < blocks.length
      · rw [if_pos h1, if_pos (by omega)]
      · rw [if_neg h1]
        by_cases h2 : lo = j ∧ j < blocks.length
        · rw [if_pos h2, if_pos (by omega)]
        · rw [if_neg h2, if_neg (by omega)]

theorem length_deselectOutsideGo (nb ne fuel lo : Nat) (blocks : List Bool) :
    (deselectOutsideGo nb ne fuel lo blocks).length = blocks.length := by
  induction fuel generalizing lo blocks with
  | zero => rfl
  | succ n ih =>
      rw [deselectOutsideGo, ih]
      split <;> simp [length_setSel]

theorem getD_deselectOutsideGo (nb ne fuel lo j : Nat) (blocks : List Bool) :
    (deselectOutsideGo nb ne fuel lo blocks).getD j false =
      if lo ≤ j ∧ j < lo + fuel ∧ (j < nb ∨ ne < j) ∧ j < blocks.length
      then false else blocks.getD j false := by
  induction fuel generalizing lo blocks with
  | zero =>
      rw [deselectOutsideGo, if_neg (by omega)]
  | succ n ih =>
      rw [deselectOutsideGo, ih]
      by_cases hview : lo < nb ∨ ne < lo
      · rw [if_pos hview, length_setSel, getD_setSel]
        by_cases h1 : lo + 1 ≤ j ∧ j < lo + 1 + n ∧ (j < nb ∨ ne < j) ∧
            j < blocks.length
        · rw [if_pos h1, if_pos (by omega)]
        · rw [if_neg h1]
          by_cases h2 : lo = j ∧ j < blocks.length
          · rw [if_pos h2, if_pos (by omega)]
          · rw [if_neg h2, if_neg (by omega)]
      · rw [if_neg hview]
        by_cases h1 : lo + 1 ≤ j ∧ j < lo + 1 + n ∧ (j < nb ∨ ne < j) ∧
            j < blocks.length
        · rw [if_pos h1, if_pos (by omega)]
        · rw [if_neg h1, if_neg (by omega)]

theorem length_setRange (blocks : List Bool) (lo hi : Nat) (v : Bool) :
    (setRange blocks lo hi v).length = blocks.length := by
  simp [setRange, length_setRangeGo]

theorem length_deselectOutside (blocks : List Bool) (lo hi nb ne : Nat) :
    (deselectOutside blocks lo hi nb ne).length = blocks.length := by
  simp [deselectOutside, length_deselectOutsideGo]

theorem toggle_range (st : CBSState) (n a t : Nat)
    (hf : st.firstIdx = a) (hl : st.blocks.length = n)
    (hsub : ∀ j, st.blocks.getD j false = true →
      min a st.endIdx ≤ j ∧ j ≤ max a st.endIdx) :
    rangeInvariant (toggleBlocksSelectedState st t).blocks a t
    ∧ (toggleBlocksSelectedState st t).blocks.length = n
    ∧ (toggleBlocksSelectedState st t).endIdx = t
    ∧ (toggleBlocksSelectedState st t).firstIdx = a
    ∧ (toggleBlocksSelectedState st t).lastIdx = st.lastIdx := by
  unfold toggleBlocksSelectedState
  simp only [hf]
  refine ⟨?_, ?_, by trivial, by trivial, by trivial⟩
  · intro j hj
    rw [length_setRange, length_deselectOutside, hl] at hj
    unfold setRange deselectOutside
    rw [getD_setRangeGo, length_deselectOutsideGo, getD_deselectOutsideGo, hl]
    by_cases hnew : min a t ≤ j ∧ j ≤ max a t
    · rw [if_pos (by omega)]
      simp [hnew]
    · rw [if_neg (by omega)]
      by_cases hold : min a st.endIdx ≤ j ∧ j ≤ max a st.endIdx
      · rw [if_pos (by omega)]
        simp
        omega
      · rw [if_neg (by omega)]
        constructor
        · intro hsel
          exact absurd (hsub j hsel) hold
        · intro hcontra
          omega
  · rw [length_setRange, length_deselectOutside, hl]

theorem onMouseOver_good (st : CBSState) (a t r : Nat)
    (hf : st.firstIdx = a) (hr : r ≠ a) (hta : t ≠ a) (htr : t ≠ r) :
    onMouseOver st (some t) (some r) =
      { toggleBlocksSelectedState st t with lastIdx := t } := by
  unfold onMouseOver
  simp [htr, hf, hr, hta]

theorem run_good_inv (n a : Nat) (evs : List (Option Nat × Option Nat)) :
    ∀ st : CBSState, st.firstIdx = a → st.blocks.length = n →
    (∀ j, st.blocks.getD j false = true →
      min a st.endIdx ≤ j ∧ j ≤ max a st.endIdx) →
    (∀ e ∈ evs, goodEv n a e = true) →
    (runMouseOvers st evs).firstIdx = a
    ∧ (runMouseOvers st evs).blocks.length = n
    ∧ (∀ j, (runMouseOvers st evs).blocks.getD j false = true →
        min a (runMouseOvers st evs).endIdx ≤ j ∧
        j ≤ max a (runMouseOvers st evs).endIdx) := by
  induction evs with
  | nil => intro st h1 h2 h3 _; exact ⟨h1, h2, h3⟩
  | cons e rest ih =>
      intro st h1 h2 h3 hgood
      obtain ⟨t, r, rfl, ht, hr, hta, htr⟩ :
          ∃ t r, e = (some t, some r) ∧ t < n ∧ r ≠ a ∧ t ≠ a ∧ t ≠ r := by
        have hge := hgood e (List.mem_cons_self e rest)
        match e with
        | (some t, some r) =>
            simp [goodEv] at hge
            exact ⟨t, r, rfl, hge.1.1.1, hge.1.1.2, hge.1.2, hge.2⟩
        | (some t, none) => simp [goodEv] at hge
        | (none, x) => simp [goodEv] at hge
      have htog := toggle_range st n a t h1 h2 h3
      have hstep : runMouseOvers st ((some t, some r) :: rest) =
          runMouseOvers { toggleBlocksSelectedState st t with lastIdx := t }
            rest := by
        unfold runMouseOvers
        rw [List.foldl_cons]
        rw [show onMouseOver st (some t) (some r) = _ from
          onMouseOver_good st a t r h1 hr hta htr]
      rw [hstep]
      apply ih
      · exact htog.2.2.2.1
      · exact htog.2.1
      · intro j hsel
        by_cases hjl :
            j < ({ toggleBlocksSelectedState st t with lastIdx := t } :
              CBSState).blocks.length
        · have hrng := (htog.1 j (by exact hjl)).mp hsel
          have hend : ({ toggleBlocksSelectedState st t with lastIdx := t } :
              CBSState).endIdx = t := htog.2.2.1
          rw [hend]
          exact hrng
        · exfalso
          rw [getD_false_of_le _ j (by omega)] at hsel
          exact Bool.false_ne_true hsel
      · exact fun e he => hgood e (List.mem_cons_of_mem _ he)

end CrossBlock

/-- Counterexample for C1: from a freshly armed watch at anchor 0 in a
three-block document, a single mouseover whose target resolves to block 2
and whose related target resolves to no block takes the
related-equals-anchor branch and selects only blocks 0 and 2 — block 1,
inside `[min(0,2), max(0,2)]`, stays unselected, refuting the invariant as
claimed. -/
theorem c1_cex :
    ¬ CrossBlock.rangeInvariant
      (CrossBlock.onMouseOver (CrossBlock.armed 3 0) (some 2) none).blocks
      0 2 := by
  decide

/-- C1 (amended): after arming at anchor `a`, for every non-empty sequence
of mouseover events each of which resolves both a target and a related
block with related distinct from the anchor and target distinct from both
(so each event takes the whole-range reconciliation branch), the set of
selected blocks equals exactly the inclusive range
`[min(a, t), max(a, t)]`, where `t` is the target index of the last event,
recorded in `endSelectedBlockIndex`. -/
theorem c1_thm (n a t r : Nat) (evs : List (Option Nat × Option Nat))
    (_ha : a < n)
    (hgood : ∀ e ∈ evs ++ [(some t, some r)],
      CrossBlock.goodEv n a e = true) :
    CrossBlock.rangeInvariant
      (CrossBlock.runMouseOvers (CrossBlock.armed n a)
        (evs ++ [(some t, some r)])).blocks a t
    ∧ (CrossBlock.runMouseOvers (CrossBlock.armed n a)
        (evs ++ [(some t, some r)])).endIdx = t := by
  have hglast := hgood (some t, some r) (by simp)
  simp [CrossBlock.goodEv] at hglast
  obtain ⟨⟨⟨ht, hr⟩, hta⟩, htr⟩ := hglast
  have hmid := CrossBlock.run_good_inv n a evs (CrossBlock.armed n a) rfl
    (by simp [CrossBlock.armed])
    (by
      intro j hsel
      rw [show (CrossBlock.armed n a).blocks = List.replicate n false from rfl,
        CrossBlock.getD_replicate_false] at hsel
      exact absurd hsel (Bool.false_ne_true))
    (fun e he => hgood e (List.mem_append_left _ he))
  have hsplit : CrossBlock.runMouseOvers (CrossBlock.armed n a)
        (evs ++ [(some t, some r)]) =
      CrossBlock.onMouseOver
        (CrossBlock.runMouseOvers (CrossBlock.armed n a) evs)
        (some t) (some r) := by
    unfold CrossBlock.runMouseOvers
    rw [List.foldl_append, List.foldl_cons, List.foldl_nil]
  rw [hsplit, CrossBlock.onMouseOver_good _ a t r hmid.1 hr hta htr]
  have htog := CrossBlock.toggle_range
    (CrossBlock.runMouseOvers (CrossBlock.armed n a) evs) n a t hmid.1
    hmid.2.1 hmid.2.2
  exact ⟨htog.1, htog.2.2.1⟩

/-- Witness for C1 at a concrete drag: five blocks, anchor 2, a downward
extension to block 4 followed by an upward sweep to block 0 leaves exactly
blocks 0..2 selected. -/
theorem c1_wit :
    CrossBlock.rangeInvariant
      (CrossBlock.runMouseOvers (CrossBlock.armed 5 2)
        ([(some 4, some 3)] ++ [(some 0, some 1)])).blocks 2 0
    ∧ (CrossBlock.runMouseOvers (CrossBlock.armed 5 2)
        ([(some 4, some 3)] ++ [(some 0, some 1)])).endIdx = 0 :=
  c1_thm 5 2 0 1 [(some 4, some 3)] (by decide) (by decide)

namespace RectSel

theorem fillAscGo_crosses (fuel : Nat) (st : RectState) (ind : Nat) :
    (fillAscGo fuel st ind).rectCrossesBlocks = st.rectCrossesBlocks := by
  induction fuel generalizing st ind with
  | zero => rfl
  | succ n ih => rw [fillAscGo, ih]; rfl

theorem fillDescGo_crosses (fuel : Nat) (st : RectState) (ind : Nat) :
    (fillDescGo fuel st ind).rectCrossesBlocks = st.rectCrossesBlocks := by
  induction fuel generalizing st ind with
  | zero => rfl
  | succ n ih => rw [fillDescGo, ih]; rfl

theorem fillAscGo_selected_of_not (fuel : Nat) (st : RectState) (ind : Nat)
    (h : st.rectCrossesBlocks = false) :
    (fillAscGo fuel st ind).selected = st.selected := by
  induction fuel generalizing st ind with
  | zero => rfl
  | succ n ih =>
      rw [fillAscGo, ih _ _ (by simp [addBlockInSelection, h])]
      simp [addBlockInSelection, h]

theorem fillDescGo_selected_of_not (fuel : Nat) (st : RectState) (ind : Nat)
    (h : st.rectCrossesBlocks = false) :
    (fillDescGo fuel st ind).selected = st.selected := by
  induction fuel generalizing st ind with
  | zero => rfl
  | succ n ih =>
      rw [fillDescGo, ih _ _ (by simp [addBlockInSelection, h])]
      simp [addBlockInSelection, h]

theorem popLoop_snd_false (p : Nat → Bool) (l : List Nat) (s : Finset Nat) :
    (popLoop false p l s).2 = s := by
  induction l generalizing s with
  | nil => rfl
  | cons x xs ih =>
      rw [popLoop]
      by_cases hp : p x <;> simp [hp, ih]

theorem trySelect_crosses (st : RectState) (i : Nat) :
    (trySelectNextBlock st i).rectCrossesBlocks = st.rectCrossesBlocks := by
  unfold trySelectNextBlock
  cases hs : st.stack with
  | nil => simp [fillAsc, fillAscGo_crosses]
  | cons top rest =>
      dsimp only
      by_cases htop : i = top
      · simp [htop]
      · rw [if_neg htop]
        split
        · split
          · simp [fillAsc, fillAscGo_crosses]
          · simp [fillDesc, fillDescGo_crosses]
        · rfl

theorem trySelect_selected_of_not (st : RectState) (i : Nat)
    (h : st.rectCrossesBlocks = false) :
    (trySelectNextBlock st i).selected = st.selected := by
  unfold trySelectNextBlock
  cases hs : st.stack with
  | nil => simp [fillAsc, fillAscGo_selected_of_not _ _ _ h]
  | cons top rest =>
      dsimp only
      by_cases htop : i = top
      · simp [htop]
      · rw [if_neg htop]
        split
        · split
          · simp [fillAsc, fillAscGo_selected_of_not _ _ _ h]
          · simp [fillDesc, fillDescGo_selected_of_not _ _ _ h]
        · simp [h, popLoop_snd_false]

theorem inverse_id_of_empty (st : RectState)
    (hsel : st.selected = ∅) (hcr : st.rectCrossesBlocks = false) :
    inverseSelection st = st := by
  unfold inverseSelection
  have hmode : (match st.stack.getLast? with
      | some i => decide (i ∈ st.selected)
      | none => false) = false := by
    match st.stack.getLast? with
    | some i => simp [hsel]
    | none => rfl
  rw [hmode]
  simp [hcr]

theorem inverse_crosses (st : RectState) :
    (inverseSelection st).rectCrossesBlocks = st.rectCrossesBlocks := by
  unfold inverseSelection
  dsimp only
  split
  · rfl
  split
  · rfl
  · rfl

theorem changing_crosses_eq (st : RectState) (ev : MoveEnv)
    (hm : st.mousedown = true) :
    (changingRectangle st ev).rectCrossesBlocks =
      if st.isRectSelectionActivated = false then false
      else !(decide ((ev.rightPos < st.startX ∧ ev.rightPos < ev.pageX) ∨
            (st.startX < ev.leftPos ∧ ev.pageX < ev.leftPos))) := by
  unfold changingRectangle
  rw [hm, if_neg (by decide)]
  dsimp only
  by_cases ha : st.isRectSelectionActivated = false
  · rw [if_pos ha, if_pos ha]
    cases hidx : ev.index with
    | none => rfl
    | some i => rw [inverse_crosses, trySelect_crosses]
  · rw [if_neg ha, if_neg ha]
    cases hidx : ev.index with
    | none => simp [← decide_not, not_lt]
    | some i =>
        rw [inverse_crosses, trySelect_crosses]
        simp [← decide_not, not_lt]

theorem fillAscGo_frame (fuel : Nat) (st : RectState) (ind : Nat) :
    (fillAscGo fuel st ind).startX = st.startX ∧
    (fillAscGo fuel st ind).mousedown = st.mousedown := by
  induction fuel generalizing st ind with
  | zero => exact ⟨rfl, rfl⟩
  | succ n ih => rw [fillAscGo]; exact ih _ _

theorem fillDescGo_frame (fuel : Nat) (st : RectState) (ind : Nat) :
    (fillDescGo fuel st ind).startX = st.startX ∧
    (fillDescGo fuel st ind).mousedown = st.mousedown := by
  induction fuel generalizing st ind with
  | zero => exact ⟨rfl, rfl⟩
  | succ n ih => rw [fillDescGo]; exact ih _ _

theorem trySelect_frame (st : RectState) (i : Nat) :
    (trySelectNextBlock st i).startX = st.startX ∧
    (trySelectNextBlock st i).mousedown = st.mousedown := by
  unfold trySelectNextBlock
  cases hs : st.stack with
  | nil => exact fillAscGo_frame _ _ _
  | cons top rest =>
      dsimp only
      by_cases htop : i = top
      · simp [htop]
      · rw [if_neg htop]
        split
        · split
          · exact fillAscGo_frame _ _ _
          · exact fillDescGo_frame _ _ _
        · exact ⟨rfl, rfl⟩

theorem inverse_frame (st : RectState) :
    (inverseSelection st).startX = st.startX ∧
    (inverseSelection st).mousedown = st.mousedown := by
  unfold inverseSelection
  dsimp only
  split
  · exact ⟨rfl, rfl⟩
  split
  · exact ⟨rfl, rfl⟩
  · exact ⟨rfl, rfl⟩

theorem changing_step (st : RectState) (ev : MoveEnv)
    (hsel : st.selected = ∅) (hcr : st.rectCrossesBlocks = false)
    (hout : bothOutsideSameSide st.startX ev) :
    (changingRectangle st ev).selected = ∅ ∧
    (changingRectangle st ev).rectCrossesBlocks = false ∧
    (changingRectangle st ev).startX = st.startX ∧
    (changingRectangle st ev).mousedown = st.mousedown := by
  unfold changingRectangle
  by_cases hm : st.mousedown = false
  · rw [if_pos hm]
    exact ⟨hsel, hcr, rfl, rfl⟩
  · rw [if_neg hm]
    dsimp only
    have hdec : (decide ¬((ev.rightPos < st.startX ∧ ev.rightPos < ev.pageX) ∨
        (st.startX < ev.leftPos ∧ ev.pageX < ev.leftPos))) = false := by
      simp only [decide_eq_false_iff_not, not_not]
      exact hout
    by_cases ha : st.isRectSelectionActivated = false
    · rw [if_pos ha]
      cases hidx : ev.index with
      | none => exact ⟨hsel, rfl, rfl, rfl⟩
      | some i =>
          dsimp only
          set st3 : RectState := { st with
            mouseX := ev.pageX, mouseY := ev.pageY,
            rectCrossesBlocks := false,
            isRectSelectionActivated := true,
            overlayVisible := true } with hst3
          have h1 : (trySelectNextBlock st3 i).selected = ∅ :=
            (trySelect_selected_of_not st3 i rfl).trans hsel
          have h2 : (trySelectNextBlock st3 i).rectCrossesBlocks = false :=
            (trySelect_crosses st3 i)
          have h4 := inverse_id_of_empty (trySelectNextBlock st3 i) h1 h2
          rw [h4]
          refine ⟨h1, h2, ?_, ?_⟩
          · exact (trySelect_frame st3 i).1
          · rw [(trySelect_frame st3 i).2]
    · rw [if_neg ha]
      cases hidx : ev.index with
      | none => exact ⟨hsel, hdec, rfl, rfl⟩
      | some i =>
          dsimp only
          set st2 : RectState := { st with
            mouseX := ev.pageX, mouseY := ev.pageY,
            rectCrossesBlocks := decide ¬((ev.rightPos < st.startX ∧
              ev.rightPos < ev.pageX) ∨
              (st.startX < ev.leftPos ∧ ev.pageX < ev.leftPos)) } with hst2
          have hc2 : st2.rectCrossesBlocks = false := hdec
          have h1 : (trySelectNextBlock st2 i).selected = ∅ :=
            (trySelect_selected_of_not st2 i hc2).trans hsel
          have h2 : (trySelectNextBlock st2 i).rectCrossesBlocks = false :=
            (trySelect_crosses st2 i).trans hc2
          have h4 := inverse_id_of_empty (trySelectNextBlock st2 i) h1 h2
          rw [h4]
          exact ⟨h1, h2, (trySelect_frame st2 i).1, (trySelect_frame st2 i).2⟩

theorem runMoves_no_select (evs : List MoveEnv) :
    ∀ st : RectState, st.selected = ∅ → st.rectCrossesBlocks = false →
    (∀ e ∈ evs, bothOutsideSameSide st.startX e) →
    (runMoves st evs).selected = ∅ ∧
    (runMoves st evs).rectCrossesBlocks = false := by
  induction evs with
  | nil => intro st h1 h2 _; exact ⟨h1, h2⟩
  | cons e rest ih =>
      intro st h1 h2 hout
      have hstep := changing_step st e h1 h2
        (hout e (List.mem_cons_self e rest))
      have hrun : runMoves st (e :: rest) =
          runMoves (changingRectangle st e) rest := by
        unfold runMoves
        rw [List.foldl_cons]
      rw [hrun]
      exact ih (changingRectangle st e) hstep.1 hstep.2.1
        (by
          intro e1 he1
          rw [hstep.2.2.1]
          exact hout e1 (List.mem_cons_of_mem _ he1))

end RectSel

/-- Counterexample for C5: on the first pointer move of a drag started at
x = 200 inside the content column [100, 300] with the pointer still at
x = 200, `rectCrossesBlocks` is forced to `false` by the activation
override even though the rectangle sits inside the column — refuting the
claimed iff for that move. -/
theorem c5_cex :
    ¬ (((RectSel.changingRectangle
          (RectSel.startSelection RectSel.idleState RectSel.startEv)
          RectSel.firstMoveEv).rectCrossesBlocks = false) ↔
        RectSel.bothOutsideSameSide
          (RectSel.startSelection RectSel.idleState RectSel.startEv).startX
          RectSel.firstMoveEv) := by
  decide

/-- C5 (amended): after a pointer move of an active drag whose rectangle is
already activated, `rectCrossesBlocks` is `false` iff the drag origin x and
the pointer x both lie outside the content column on the same side; on the
activating (first) move it is forced to `false` regardless; and a drag all
of whose moves keep both edges outside on one side keeps the flag false
after every move and never selects any block. -/
theorem c5_thm (st : RectSel.RectState) (ev : RectSel.MoveEnv)
    (evs : List RectSel.MoveEnv) :
    (st.mousedown = true → st.isRectSelectionActivated = true →
      ((RectSel.changingRectangle st ev).rectCrossesBlocks = false ↔
        RectSel.bothOutsideSameSide st.startX ev))
    ∧ (st.mousedown = true → st.isRectSelectionActivated = false →
      (RectSel.changingRectangle st ev).rectCrossesBlocks = false)
    ∧ (st.selected = ∅ → st.rectCrossesBlocks = false →
      (∀ e ∈ evs, RectSel.bothOutsideSameSide st.startX e) →
      (RectSel.runMoves st evs).selected = ∅ ∧
      (RectSel.runMoves st evs).rectCrossesBlocks = false) := by
  refine ⟨fun hm ha => ?_, fun hm ha => ?_, fun h1 h2 h3 => ?_⟩
  · rw [RectSel.changing_crosses_eq st ev hm, if_neg (by simp [ha])]
    unfold RectSel.bothOutsideSameSide
    simp
    omega
  · rw [RectSel.changing_crosses_eq st ev hm, if_pos ha]
  · exact RectSel.runMoves_no_select evs st h1 h2 h3

/-- Witness for C5 at a concrete fully-left drag: the flag stays false and
nothing gets selected. -/
theorem c5_wit :
    ((RectSel.changingRectangle RectSel.leftDragState
        RectSel.leftMoveEv).rectCrossesBlocks = false)
    ∧ (RectSel.runMoves RectSel.leftDragState
        [RectSel.leftMoveEv, RectSel.leftMoveEv2]).selected = ∅
    ∧ (RectSel.runMoves RectSel.leftDragState
        [RectSel.leftMoveEv, RectSel.leftMoveEv2]).rectCrossesBlocks =
        false :=
  ⟨((c5_thm RectSel.leftDragState RectSel.leftMoveEv []).1 rfl rfl).mpr
      (by decide),
   ((c5_thm RectSel.leftDragState RectSel.leftMoveEv
        [RectSel.leftMoveEv, RectSel.leftMoveEv2]).2.2 rfl rfl
      (by decide)).1,
   ((c5_thm RectSel.leftDragState RectSel.leftMoveEv
        [RectSel.leftMoveEv, RectSel.leftMoveEv2]).2.2 rfl rfl
      (by decide)).2⟩

namespace RectSel

theorem stepDown_tail (a : Nat) (t : List Nat) (h : stepDown (a :: t) = true) :
    stepDown t = true := by
  cases t with
  | nil => rfl
  | cons b u => simp [stepDown] at h; simp [stepDown, h.2]

theorem stepUp_tail (a : Nat) (t : List Nat) (h : stepUp (a :: t) = true) :
    stepUp t = true := by
  cases t with
  | nil => rfl
  | cons b u => simp [stepUp] at h; simp [stepUp, h.2]

theorem stepDown_lt_of_mem (a : Nat) (t : List Nat)
    (h : stepDown (a :: t) = true) : ∀ x ∈ t, x < a := by
  induction t generalizing a with
  | nil => intro x hx; cases hx
  | cons b u ih =>
      intro x hx
      simp [stepDown] at h
      rcases List.mem_cons.mp hx with rfl | hx
      · omega
      · have := ih b (by simp [stepDown, h.2]) x hx
        omega

theorem stepUp_gt_of_mem (a : Nat) (t : List Nat)
    (h : stepUp (a :: t) = true) : ∀ x ∈ t, a < x := by
  induction t generalizing a with
  | nil => intro x hx; cases hx
  | cons b u ih =>
      intro x hx
      simp [stepUp] at h
      rcases List.mem_cons.mp hx with rfl | hx
      · omega
      · have := ih b (by simp [stepUp, h.2]) x hx
        omega

theorem stepDown_dropWhile (p : Nat → Bool) (l : List Nat)
    (h : stepDown l = true) : stepDown (l.dropWhile p) = true := by
  induction l with
  | nil => rfl
  | cons a t ih =>
      rw [List.dropWhile]
      by_cases hp : p a
      · simp only [hp]
        exact ih (stepDown_tail a t h)
      · simp only [Bool.not_eq_true] at hp
        simp only [hp]
        exact h

theorem stepUp_dropWhile (p : Nat → Bool) (l : List Nat)
    (h : stepUp l = true) : stepUp (l.dropWhile p) = true := by
  induction l with
  | nil => rfl
  | cons a t ih =>
      rw [List.dropWhile]
      by_cases hp : p a
      · simp only [hp]
        exact ih (stepUp_tail a t h)
      · simp only [Bool.not_eq_true] at hp
        simp only [hp]
        exact h

end RectSel

namespace RectSel

theorem fillAscGo_stack_stepDown (fuel : Nat) :
    ∀ (st : RectState) (ind : Nat), stepDown st.stack = true →
    (∀ h, st.stack.head? = some h → h + 1 = ind) →
    stepDown (fillAscGo fuel st ind).stack = true := by
  induction fuel with
  | zero => intro st ind h _; exact h
  | succ n ih =>
      intro st ind h hhead
      rw [fillAscGo]
      apply ih
      · show stepDown (ind :: st.stack) = true
        cases hs : st.stack with
        | nil => rfl
        | cons b u =>
            have hb : b + 1 = ind := hhead b (by rw [hs]; rfl)
            rw [hs] at h
            simp [stepDown, hb, h]
      · intro h1 hh1
        have : ind = h1 := by
          simpa [addBlockInSelection] using hh1
        omega

theorem fillDescGo_stack_stepUp (fuel : Nat) :
    ∀ (st : RectState) (ind : Nat), fuel ≤ ind + 1 →
    stepUp st.stack = true →
    (∀ h, st.stack.head? = some h → h = ind + 1) →
    stepUp (fillDescGo fuel st ind).stack = true := by
  induction fuel with
  | zero => intro st ind _ h _; exact h
  | succ n ih =>
      intro st ind hle h hhead
      rw [fillDescGo]
      have hpush : stepUp (ind :: st.stack) = true := by
        cases hs : st.stack with
        | nil => rfl
        | cons b u =>
            have hb : b = ind + 1 := hhead b (by rw [hs]; rfl)
            rw [hs] at h
            rw [hb] at h
            simp [stepUp, hb, h]
      cases n with
      | zero => exact hpush
      | succ m =>
          apply ih
          · show m + 1 ≤ (ind - 1) + 1
            omega
          · exact hpush
          · intro h1 hh1
            have h1ind : ind = h1 := by
              simpa [addBlockInSelection] using hh1
            omega

theorem popLoop_fst (c : Bool) (p : Nat → Bool) (l : List Nat) :
    ∀ s, (popLoop c p l s).1 = l.dropWhile p := by
  induction l with
  | nil => intro s; rfl
  | cons x xs ih =>
      intro s
      rw [popLoop, List.dropWhile]
      by_cases hp : p x
      · simp only [hp, if_true]
        exact ih _
      · simp only [Bool.not_eq_true] at hp
        simp [hp]

theorem erase_foldl_sdiff (xs : List Nat) :
    ∀ s : Finset Nat, xs.foldl (fun acc x => acc.erase x) s =
      s \ xs.toFinset := by
  induction xs with
  | nil => intro s; simp
  | cons x t ih =>
      intro s
      rw [List.foldl_cons, ih]
      ext y
      simp [Finset.mem_erase]
      tauto

theorem popLoop_snd_true (p : Nat → Bool) (l : List Nat) :
    ∀ s, (popLoop true p l s).2 = s \ (l.takeWhile p).toFinset := by
  induction l with
  | nil => intro s; simp [popLoop]
  | cons x xs ih =>
      intro s
      rw [popLoop, List.takeWhile]
      by_cases hp : p x
      · simp only [hp, if_true]
        rw [ih]
        ext y
        simp [Finset.mem_erase]
        tauto
      · simp only [Bool.not_eq_true] at hp
        simp [hp]

theorem dropWhile_eq_filter_down (index : Nat) (l : List Nat)
    (h : stepDown l = true) :
    l.dropWhile (fun x => decide (index < x)) =
      l.filter (fun x => !(decide (index < x))) := by
  induction l with
  | nil => rfl
  | cons a t ih =>
      rw [List.dropWhile_cons, List.filter_cons]
      by_cases hp : index < a
      · rw [if_pos (by simpa using hp), if_neg (by simpa using hp)]
        exact ih (stepDown_tail a t h)
      · rw [if_neg (by simpa using hp), if_pos (by simpa using hp)]
        congr 1
        symm
        rw [List.filter_eq_self]
        intro x hx
        have hxa := stepDown_lt_of_mem a t h x hx
        simpa using (by omega : ¬ index < x)

theorem takeWhile_eq_filter_down (index : Nat) (l : List Nat)
    (h : stepDown l = true) :
    l.takeWhile (fun x => decide (index < x)) =
      l.filter (fun x => decide (index < x)) := by
  induction l with
  | nil => rfl
  | cons a t ih =>
      rw [List.takeWhile_cons, List.filter_cons]
      by_cases hp : index < a
      · rw [if_pos (by simpa using hp), if_pos (by simpa using hp)]
        rw [ih (stepDown_tail a t h)]
      · rw [if_neg (by simpa using hp), if_neg (by simpa using hp)]
        symm
        rw [List.filter_eq_nil_iff]
        intro x hx
        have hxa := stepDown_lt_of_mem a t h x hx
        simpa using (by omega : ¬ index < x)

theorem dropWhile_eq_filter_up (index : Nat) (l : List Nat)
    (h : stepUp l = true) :
    l.dropWhile (fun x => decide (x < index)) =
      l.filter (fun x => !(decide (x < index))) := by
  induction l with
  | nil => rfl
  | cons a t ih =>
      rw [List.dropWhile_cons, List.filter_cons]
      by_cases hp : a < index
      · rw [if_pos (by simpa using hp), if_neg (by simpa using hp)]
        exact ih (stepUp_tail a t h)
      · rw [if_neg (by simpa using hp), if_pos (by simpa using hp)]
        congr 1
        symm
        rw [List.filter_eq_self]
        intro x hx
        have hxa := stepUp_gt_of_mem a t h x hx
        simpa using (by omega : ¬ x < index)

theorem takeWhile_eq_filter_up (index : Nat) (l : List Nat)
    (h : stepUp l = true) :
    l.takeWhile (fun x => decide (x < index)) =
      l.filter (fun x => decide (x < index)) := by
  induction l with
  | nil => rfl
  | cons a t ih =>
      rw [List.takeWhile_cons, List.filter_cons]
      by_cases hp : a < index
      · rw [if_pos (by simpa using hp), if_pos (by simpa using hp)]
        rw [ih (stepUp_tail a t h)]
      · rw [if_neg (by simpa using hp), if_neg (by simpa using hp)]
        symm
        rw [List.filter_eq_nil_iff]
        intro x hx
        have hxa := stepUp_gt_of_mem a t h x hx
        simpa using (by omega : ¬ x < index)

end RectSel

namespace RectSel

theorem trySelect_mono (st : RectState) (index : Nat)
    (h : isMonoRun st.stack = true) :
    isMonoRun (trySelectNextBlock st index).stack = true := by
  unfold trySelectNextBlock
  cases hs : st.stack with
  | nil =>
      dsimp only
      have hsd := fillAscGo_stack_stepDown (index + 1 - index) st index
        (by rw [hs]; rfl)
        (by intro h1 hh1; rw [hs] at hh1; cases hh1)
      unfold fillAsc isMonoRun
      rw [Bool.or_eq_true]
      left
      simpa using hsd
  | cons top rest =>
      dsimp only
      by_cases htop : index = top
      · rw [if_pos htop]
        exact h
      · rw [if_neg htop]
        cases rest with
        | nil =>
            rw [if_pos (Or.inr (Or.inr rfl))]
            by_cases hlt : top < index
            · rw [if_pos hlt]
              have hsd := fillAscGo_stack_stepDown (index + 1 - (top + 1)) st
                (top + 1) (by rw [hs]; rfl)
                (by intro h1 hh1; rw [hs] at hh1; cases hh1; rfl)
              unfold fillAsc isMonoRun
              rw [Bool.or_eq_true]
              left
              simpa using hsd
            · rw [if_neg hlt]
              have hsu := fillDescGo_stack_stepUp ((top - 1) + 1 - index) st
                (top - 1) (by omega) (by rw [hs]; rfl)
                (by intro h1 hh1; rw [hs] at hh1; cases hh1; omega)
              unfold fillDesc isMonoRun
              rw [Bool.or_eq_true]
              right
              simpa using hsu
        | cons second t =>
            dsimp only
            by_cases hd2 : second < top
            · rw [if_pos hd2]
              have hsd : stepDown st.stack = true := by
                rw [hs]
                rw [hs] at h
                simp [isMonoRun] at h
                rcases h with h | h
                · exact h
                · simp [stepUp] at h
                  omega
              by_cases hlt : top < index
              · rw [if_pos (Or.inl ⟨hlt, rfl⟩), if_pos hlt]
                have hres := fillAscGo_stack_stepDown (index + 1 - (top + 1))
                  st (top + 1) hsd
                  (by intro h1 hh1; rw [hs] at hh1; cases hh1; rfl)
                unfold fillAsc isMonoRun
                rw [Bool.or_eq_true]
                left
                simpa using hres
              · rw [if_neg (by
                  rintro (⟨h1, _⟩ | ⟨_, h2⟩ | h3)
                  · exact hlt h1
                  · exact absurd h2 (by decide)
                  · exact absurd h3 (by decide))]
                show isMonoRun (popLoop st.rectCrossesBlocks _
                    (top :: second :: t) st.selected).1 = true
                rw [popLoop_fst]
                rw [hs] at h
                simp only [isMonoRun, Bool.or_eq_true] at h ⊢
                rcases h with h | h
                · exact Or.inl (stepDown_dropWhile _ _ h)
                · exact Or.inr (stepUp_dropWhile _ _ h)
            · rw [if_neg hd2]
              have hsu : stepUp st.stack = true := by
                rw [hs]
                rw [hs] at h
                simp [isMonoRun] at h
                rcases h with h | h
                · simp [stepDown] at h
                  omega
                · exact h
              by_cases hlt2 : index < top
              · rw [if_pos (Or.inr (Or.inl ⟨hlt2, rfl⟩))]
                rw [if_neg (by omega : ¬ top < index)]
                have hres := fillDescGo_stack_stepUp ((top - 1) + 1 - index)
                  st (top - 1) (by omega) hsu
                  (by intro h1 hh1; rw [hs] at hh1; cases hh1; omega)
                unfold fillDesc isMonoRun
                rw [Bool.or_eq_true]
                right
                simpa using hres
              · rw [if_neg (by
                  rintro (⟨_, h1⟩ | ⟨h2, _⟩ | h3)
                  · exact absurd h1 (by decide)
                  · exact hlt2 h2
                  · exact absurd h3 (by decide))]
                show isMonoRun (popLoop st.rectCrossesBlocks _
                    (top :: second :: t) st.selected).1 = true
                rw [popLoop_fst]
                rw [hs] at h
                simp only [isMonoRun, Bool.or_eq_true] at h ⊢
                rcases h with h | h
                · exact Or.inl (stepDown_dropWhile _ _ h)
                · exact Or.inr (stepUp_dropWhile _ _ h)

end RectSel

namespace RectSel

theorem trySelect_reduction_down (st : RectState) (index top second : Nat)
    (rest : List Nat) (hs : st.stack = top :: second :: rest)
    (h2 : second < top) (h3 : index < top)
    (hsd : stepDown st.stack = true) :
    (trySelectNextBlock st index).stack =
      st.stack.filter (fun x => !(decide (index < x)))
    ∧ (trySelectNextBlock st index).selected =
      (if st.rectCrossesBlocks then
        st.selected \ (st.stack.filter (fun x => decide (index < x))).toFinset
      else st.selected) := by
  unfold trySelectNextBlock
  rw [hs]
  dsimp only
  rw [if_neg (by omega : ¬ index = top), if_pos h2]
  rw [if_neg (by
    rintro (⟨h1, _⟩ | ⟨_, hD⟩ | hD)
    · omega
    · exact absurd hD (by decide)
    · exact absurd hD (by decide))]
  rw [if_neg (by omega : ¬ top < index)]
  constructor
  · show (popLoop st.rectCrossesBlocks _ (top :: second :: rest)
        st.selected).1 = _
    rw [popLoop_fst]
    rw [hs] at hsd
    exact dropWhile_eq_filter_down index _ hsd
  · show (popLoop st.rectCrossesBlocks _ (top :: second :: rest)
        st.selected).2 = _
    rw [hs] at hsd
    cases hcr : st.rectCrossesBlocks
    · rw [popLoop_snd_false]
      simp
    · rw [popLoop_snd_true, takeWhile_eq_filter_down index _ hsd]
      simp

theorem trySelect_reduction_up (st : RectState) (index top second : Nat)
    (rest : List Nat) (hs : st.stack = top :: second :: rest)
    (h2 : top < second) (h3 : top < index)
    (hsu : stepUp st.stack = true) :
    (trySelectNextBlock st index).stack =
      st.stack.filter (fun x => !(decide (x < index)))
    ∧ (trySelectNextBlock st index).selected =
      (if st.rectCrossesBlocks then
        st.selected \ (st.stack.filter (fun x => decide (x < index))).toFinset
      else st.selected) := by
  unfold trySelectNextBlock
  rw [hs]
  dsimp only
  rw [if_neg (by omega : ¬ index = top), if_neg (by omega : ¬ second < top)]
  rw [if_neg (by
    rintro (⟨_, hD⟩ | ⟨h1, _⟩ | hD)
    · exact absurd hD (by decide)
    · omega
    · exact absurd hD (by decide))]
  rw [if_pos h3]
  constructor
  · show (popLoop st.rectCrossesBlocks _ (top :: second :: rest)
        st.selected).1 = _
    rw [popLoop_fst]
    rw [hs] at hsu
    exact dropWhile_eq_filter_up index _ hsu
  · show (popLoop st.rectCrossesBlocks _ (top :: second :: rest)
        st.selected).2 = _
    rw [hs] at hsu
    cases hcr : st.rectCrossesBlocks
    · rw [popLoop_snd_false]
      simp
    · rw [popLoop_snd_true, takeWhile_eq_filter_up index _ hsu]
      simp

theorem runIndices_mono (idxs : List Nat) :
    ∀ st : RectState, isMonoRun st.stack = true →
    isMonoRun (runIndices st idxs).stack = true := by
  induction idxs with
  | nil => intro st h; exact h
  | cons i rest ih =>
      intro st h
      have hrun : runIndices st (i :: rest) =
          runIndices (trySelectNextBlock st i) rest := by
        unfold runIndices
        rw [List.foldl_cons]
      rw [hrun]
      exact ih _ (trySelect_mono st i h)

end RectSel

/-- C4: throughout any rectangle drag, `stackOfSelected` (head = most
recently pushed index) is a contiguous run of adjacent block indices,
strictly monotonic in the direction given by its last two entries;
delivering the index already on top changes nothing at all; and a direction
reversal pops exactly the stacked indices lying strictly beyond the new
pointer index — deselecting each popped index when `rectCrossesBlocks`
holds — one at a time in reverse push order (the result is the maximal
kept prefix, i.e. the stack filtered to the indices not beyond the new
index). -/
theorem c4_thm (st : RectSel.RectState) (index top second : Nat)
    (rest idxs : List Nat) :
    (RectSel.isMonoRun st.stack = true →
      RectSel.isMonoRun (RectSel.runIndices st idxs).stack = true)
    ∧ (st.stack.head? = some index →
        RectSel.trySelectNextBlock st index = st)
    ∧ (st.stack = top :: second :: rest → second < top → index < top →
        RectSel.stepDown st.stack = true →
        (RectSel.trySelectNextBlock st index).stack =
          st.stack.filter (fun x => !(decide (index < x)))
        ∧ (RectSel.trySelectNextBlock st index).selected =
          (if st.rectCrossesBlocks then
            st.selected \
              (st.stack.filter (fun x => decide (index < x))).toFinset
          else st.selected))
    ∧ (st.stack = top :: second :: rest → top < second → top < index →
        RectSel.stepUp st.stack = true →
        (RectSel.trySelectNextBlock st index).stack =
          st.stack.filter (fun x => !(decide (x < index)))
        ∧ (RectSel.trySelectNextBlock st index).selected =
          (if st.rectCrossesBlocks then
            st.selected \
              (st.stack.filter (fun x => decide (x < index))).toFinset
          else st.selected)) := by
  refine ⟨RectSel.runIndices_mono idxs st, ?_,
    fun hs h2 h3 h4 =>
      RectSel.trySelect_reduction_down st index top second rest hs h2 h3 h4,
    fun hs h2 h3 h4 =>
      RectSel.trySelect_reduction_up st index top second rest hs h2 h3 h4⟩
  intro hh
  unfold RectSel.trySelectNextBlock
  cases hsx : st.stack with
  | nil => rw [hsx] at hh; cases hh
  | cons topx restx =>
      rw [hsx] at hh
      simp at hh
      dsimp only
      rw [if_pos hh.symm]

/-- Witness for C4 at a concrete downward run 3-4-5 with the rectangle
crossing the column: pointing back at 4 keeps the run monotone, repeating
the top is a no-op, and the reversal pops and deselects exactly index 5. -/
theorem c4_wit :
    RectSel.isMonoRun
      ((RectSel.runIndices RectSel.downRunState [4]).stack) = true
    ∧ RectSel.trySelectNextBlock RectSel.downRunState 5 =
        RectSel.downRunState
    ∧ (RectSel.trySelectNextBlock RectSel.downRunState 4).stack =
        RectSel.downRunState.stack.filter (fun x => !(decide (4 < x)))
    ∧ (RectSel.trySelectNextBlock RectSel.downRunState 4).selected =
        (if RectSel.downRunState.rectCrossesBlocks then
          RectSel.downRunState.selected \
            (RectSel.downRunState.stack.filter
              (fun x => decide (4 < x))).toFinset
        else RectSel.downRunState.selected) :=
  ⟨(c4_thm RectSel.downRunState 4 5 4 [3] [4]).1 (by decide),
   (c4_thm RectSel.downRunState 5 5 4 [3] []).2.1 (by decide),
   ((c4_thm RectSel.downRunState 4 5 4 [3] []).2.2.1 rfl (by decide)
      (by decide) (by decide)).1,
   ((c4_thm RectSel.downRunState 4 5 4 [3] []).2.2.1 rfl (by decide)
      (by decide) (by decide)).2⟩
